import Mathlib

/-!
# Verification of the image-uploader blob store (`app.py`)

A shallow embedding of the core logic of `app.py`: extension filtering
(`allowed_file`), random identifier generation (`generate_random_id`),
upload handling (`upload_file`), retrieval (`view_image`) and the
retention sweeper (`cleanup_files`, modelled as `cleanup_loop` /
`cleanup_cycle`).

Modelling conventions:
* Byte strings are `List Nat`.
* The upload directory is an association list `Store` mapping a file name
  to its content and modification time.
* A stored file's content is either a valid ZIP container (a list of
  entries in native listing order) or raw non-ZIP bytes
  (`FileContent.raw`), on which `zipfile.ZipFile` raises `BadZipFile`.
* `zf.read(name)` resolves the name through CPython's `NameToInfo`
  dictionary, in which the last same-named entry wins (`zipReadByName`).
* The PIL image check `Image.open` is an external collaborator and is
  passed in as a boolean oracle `validate`.
* The random source behind `random.choice` is passed in as a stream
  `r : Nat → Nat`; each pick indexes the alphabet modulo its length.
* Filesystem faults during the sweep (`os.path.getmtime` / `os.remove`
  raising) are an oracle `fault : String → Bool`; a raised exception is
  the `Bool` component of `cleanup_loop`'s result, caught by the
  `try/except` that wraps the whole listing loop in `cleanup_files`.
-/

/-- Byte strings as lists of naturals. -/
abbrev Bytes := List Nat

/-- One entry of a ZIP archive: its internal file name and its payload. -/
structure ZipEntry where
  name : String
  data : Bytes
deriving DecidableEq

/-- Content of a file in the upload directory: a valid ZIP container with
its entries in native listing order, or raw bytes that `zipfile.ZipFile`
rejects with `BadZipFile` (including the empty file). -/
inductive FileContent where
  | raw (bytes : Bytes)
  | zip (entries : List ZipEntry)
deriving DecidableEq

/-- A file in the upload directory: its content and its modification time
(`os.path.getmtime`), in seconds. -/
structure StoredFile where
  content : FileContent
  mtime : Int
deriving DecidableEq

/-- The upload directory `UPLOAD_FOLDER`: an association list from file
name to stored file. -/
abbrev Store := List (String × StoredFile)

/-- Look a file name up in the store (`os.path.exists` / opening the file). -/
def storeLookup : Store → String → Option StoredFile
  | [], _ => none
  | (k, v) :: rest, key => if k = key then some v else storeLookup rest key

/-- Write a file, overwriting any existing file of the same name
(`zipfile.ZipFile(path, 'w')`). -/
def storeSet : Store → String → StoredFile → Store
  | [], key, v => [(key, v)]
  | (k, w) :: rest, key, v =>
    if k = key then (key, v) :: rest else (k, w) :: storeSet rest key v

/-- Remove the first file of the given name (`os.remove` on a present file). -/
def storeRemove : Store → String → Store
  | [], _ => []
  | (k, v) :: rest, key => if k = key then rest else (k, v) :: storeRemove rest key

/-- `os.remove(path)`: removes the file, raising `FileNotFoundError`
(modelled as `.error ()`) when no such file exists. -/
def os_remove (store : Store) (path : String) : Except Unit Store :=
  if (storeLookup store path).isSome then .ok (storeRemove store path)
  else .error ()

/-- The characters after the final `'.'` of a string, `none` when the
string has no `'.'`: the list-level core of Python's
`filename.rsplit('.', 1)[1]` guarded by `'.' in filename`. -/
def afterLastDotAux : List Char → Option (List Char)
  | [] => none
  | c :: rest =>
    match afterLastDotAux rest with
    | some r => some r
    | none => if c = '.' then some rest else none

/-- The substring after the final `'.'` of a string (Python
`s.rsplit('.', 1)[1]`), `none` when `'.' not in s`. -/
def afterLastDot (s : String) : Option String :=
  (afterLastDotAux s.data).map fun l => String.mk l

/-- Python `str.lower()`, modelled character-wise on the ASCII range
(`Char.toLower`). Python's lowering is full-Unicode; the two agree on
ASCII strings, so theorems about the served MIME string are stated for
ASCII extensions. -/
def strLower (s : String) : String :=
  String.mk (s.data.map Char.toLower)

/-- Python `s.endswith(t)`. -/
def strEndsWith (s t : String) : Bool :=
  decide (s.data.reverse.take t.data.length = t.data.reverse)

/-- `ALLOWED_EXTENSIONS = {'png', 'jpg', 'jpeg', 'gif', 'webp'}`. -/
def ALLOWED_EXTENSIONS : List String := ["png", "jpg", "jpeg", "gif", "webp"]

/-- `FILE_EXPIRY_SECONDS = 24 * 60 * 60`. -/
def FILE_EXPIRY_SECONDS : Int := 24 * 60 * 60

/-- `allowed_file(filename)`: `'.' in filename and
filename.rsplit('.', 1)[1].lower() in ALLOWED_EXTENSIONS`. -/
def allowed_file (filename : String) : Bool :=
  match afterLastDot filename with
  | none => false
  | some ext => decide (strLower ext ∈ ALLOWED_EXTENSIONS)

/-- `chars = string.ascii_letters + string.digits`. -/
def chars_alphanumeric : String :=
  "abcdefghijklmnopqrstuvwxyzABCDEFGHIJKLMNOPQRSTUVWXYZ0123456789"

/-- `generate_random_id(length)`: one `random.choice(chars)` per position,
the random source modelled as a stream `r` of naturals, each pick taken
modulo the alphabet size. -/
def generate_random_id (length : Nat) (r : Nat → Nat) : String :=
  String.mk ((List.range length).map fun i =>
    chars_alphanumeric.data.getD (r i % chars_alphanumeric.data.length) 'a')

/-- Outcome of `upload_file` (`POST /upload`). -/
inductive UploadResult where
  | noFilePart
  | noSelectedFile
  | errorTypeNotAllowed
  | errorInvalidImage
  | ok (zip_filename : String) (random_id : String)
deriving DecidableEq

/-- `upload_file()` (`POST /upload`): `validate` is the `Image.open`
oracle, `r` the random stream, `now` the clock stamping the new file's
modification time, `file` the multipart field (`none` when `'file' not in
request.files`). Returns the JSON outcome and the store after the
request. -/
def upload_file (validate : Bytes → Bool) (r : Nat → Nat) (now : Int)
    (file : Option (String × Bytes)) (store : Store) : UploadResult × Store :=
  match file with
  | none => (.noFilePart, store)
  | some (filename, bytes) =>
    if filename = "" then (.noSelectedFile, store)
    else if allowed_file filename then
      let file_ext := strLower ((afterLastDot filename).getD "")
      let random_id := generate_random_id 8 r
      let zip_filename := random_id ++ ".zip"
      let filename_inside_zip := random_id ++ "." ++ file_ext
      if validate bytes then
        (.ok zip_filename random_id,
         storeSet store zip_filename ⟨.zip [⟨filename_inside_zip, bytes⟩], now⟩)
      else (.errorInvalidImage, store)
    else (.errorTypeNotAllowed, store)

/-- Outcome of `view_image` (`GET /view_image/<random_id>`). -/
inductive ViewResult where
  | notFound
  | badZip
  | emptyArchive
  | exceptionError
  | ok (mimetype : String) (data : Bytes)
deriving DecidableEq

/-- HTTP status code of each `view_image` outcome. -/
def http_status : ViewResult → Nat
  | .notFound => 404
  | .badZip => 500
  | .emptyArchive => 500
  | .exceptionError => 500
  | .ok _ _ => 200

/-- The MIME type derived from a (lowercased) extension:
`mimetype = f'image/{file_ext}'`, overridden to `image/jpeg` for `jpg`. -/
def mime (ext : String) : String :=
  if ext = "jpg" then "image/jpeg" else "image/" ++ ext

/-- CPython `zipfile` read-by-name: `zf.read(name)` resolves `name`
through `NameToInfo`, a dictionary filled in listing order in which the
LAST entry of a given name wins. Returns that entry's payload, `none`
when no entry carries the name (`KeyError`). -/
def zipReadByName : List ZipEntry → String → Option Bytes
  | [], _ => none
  | e :: rest, name =>
    match zipReadByName rest name with
    | some d => some d
    | none => if e.name = name then some e.data else none

/-- `view_image(random_id)` (`GET /view_image/<random_id>`): resolve
`{random_id}.zip`, 404 when absent; open it, 500 on `BadZipFile`; 500 on
an empty listing; otherwise take the first listed entry's name
(`file_list[0]`), derive the MIME type from its extension, and serve the
bytes of `zf.read(file_list[0])` — a read BY NAME, in which the last
same-named entry wins. An entry name without `'.'` makes
`rsplit('.', 1)[1]` raise `IndexError` before any read, caught by the
generic `except` as a 500 (`ViewResult.exceptionError`). -/
def view_image (random_id : String) (store : Store) : ViewResult :=
  let zip_filename := random_id ++ ".zip"
  match storeLookup store zip_filename with
  | none => .notFound
  | some file =>
    match file.content with
    | .raw _ => .badZip
    | .zip entries =>
      match entries with
      | [] => .emptyArchive
      | e :: _ =>
        match afterLastDot e.name with
        | none => .exceptionError
        | some ex =>
          match zipReadByName entries e.name with
          | none => .exceptionError
          | some image_data => .ok (mime (strLower ex)) image_data

/-- The `for filename in os.listdir(...)` loop of `cleanup_files`, run on
a fixed listing against an evolving store. The `Bool` result records
whether an exception was raised (a fault, or a file missing at
`os.path.getmtime`); the exception aborts the rest of the listing and is
caught by the `try/except` wrapping the whole loop. -/
def cleanup_loop (cutoff : Int) (fault : String → Bool) :
    Store → List String → Store × Bool
  | store, [] => (store, false)
  | store, filename :: rest =>
    if strEndsWith filename ".zip" then
      if fault filename then (store, true)
      else
        match storeLookup store filename with
        | none => (store, true)
        | some file =>
          if file.mtime < cutoff then
            cleanup_loop cutoff fault (storeRemove store filename) rest
          else cleanup_loop cutoff fault store rest
    else cleanup_loop cutoff fault store rest

/-- One cycle of `cleanup_files`: `cutoff_time = time.time() -
FILE_EXPIRY_SECONDS`, then the listing loop over `os.listdir`, its
exception (if any) caught and logged. -/
def cleanup_cycle (now : Int) (fault : String → Bool) (store : Store) : Store :=
  (cleanup_loop (now - FILE_EXPIRY_SECONDS) fault store (store.map Prod.fst)).1

/-- Finitely many iterations of the `while True` sweeper loop, each with
its own clock and fault environment. -/
def cleanup_files_run : List (Int × (String → Bool)) → Store → Store
  | [], store => store
  | (now, fault) :: rest, store => cleanup_files_run rest (cleanup_cycle now fault store)

/-! ## Store lemmas -/

theorem storeLookup_storeSet_self (s : Store) (k : String) (v : StoredFile) :
    storeLookup (storeSet s k v) k = some v := by
  induction s with
  | nil => simp [storeSet, storeLookup]
  | cons hd tl ih =>
    obtain ⟨k', v'⟩ := hd
    by_cases h : k' = k
    · simp [storeSet, h, storeLookup]
    · simp [storeSet, h, storeLookup, ih]

theorem storeLookup_storeRemove_ne (s : Store) (k m : String) (h : k ≠ m) :
    storeLookup (storeRemove s k) m = storeLookup s m := by
  induction s with
  | nil => simp [storeRemove]
  | cons hd tl ih =>
    obtain ⟨k', v'⟩ := hd
    by_cases hk : k' = k
    · subst hk
      simp [storeRemove, storeLookup, h, ih]
    · by_cases hm : k' = m
      · subst hm
        simp [storeRemove, storeLookup, hk]
      · simp [storeRemove, storeLookup, hk, hm, ih]

theorem storeLookup_eq_none_iff (s : Store) (m : String) :
    storeLookup s m = none ↔ m ∉ s.map Prod.fst := by
  induction s with
  | nil => simp [storeLookup]
  | cons hd tl ih =>
    obtain ⟨k', v'⟩ := hd
    by_cases hm : k' = m
    · simp [storeLookup, hm]
    · simp [storeLookup, hm, ih, Ne.symm hm]

theorem keys_storeRemove_sublist (s : Store) (k : String) :
    ((storeRemove s k).map Prod.fst).Sublist (s.map Prod.fst) := by
  induction s with
  | nil => simp [storeRemove]
  | cons hd tl ih =>
    obtain ⟨k', v'⟩ := hd
    by_cases hk : k' = k
    · simp [storeRemove, hk]
    · simpa [storeRemove, hk] using ih.cons₂ k'

theorem storeLookup_storeRemove_self (s : Store) (k : String)
    (h : (s.map Prod.fst).Nodup) : storeLookup (storeRemove s k) k = none := by
  induction s with
  | nil => simp [storeRemove, storeLookup]
  | cons hd tl ih =>
    obtain ⟨k', v'⟩ := hd
    simp only [List.map_cons, List.nodup_cons] at h
    by_cases hk : k' = k
    · subst hk
      rw [storeRemove, if_pos rfl, storeLookup_eq_none_iff]
      exact h.1
    · simp [storeRemove, storeLookup, hk, ih h.2]

/-! ## C6: identifier generation -/

theorem chars_alphanumeric_getD :
    ∀ i : Fin 62, (chars_alphanumeric.data.getD i 'a').isAlphanum = true := by
  decide

/-- C6: every call to `generate(8)` returns a string of exactly 8
characters, each in `[A-Za-z0-9]` (`Char.isAlphanum`), whatever the
random stream yields. -/
theorem generate_random_id_spec (r : Nat → Nat) :
    (generate_random_id 8 r).length = 8 ∧
    ∀ c ∈ (generate_random_id 8 r).data, c.isAlphanum = true := by
  constructor
  · rfl
  · intro c hc
    have hdata : (generate_random_id 8 r).data = (List.range 8).map fun i =>
        chars_alphanumeric.data.getD (r i % chars_alphanumeric.data.length) 'a' := rfl
    rw [hdata] at hc
    simp only [List.mem_map, List.mem_range] at hc
    obtain ⟨i, -, rfl⟩ := hc
    have hlt : r i % chars_alphanumeric.data.length < 62 := by
      have : chars_alphanumeric.data.length = 62 := by decide
      rw [this]
      exact Nat.mod_lt _ (by decide)
    have := chars_alphanumeric_getD ⟨r i % chars_alphanumeric.data.length, hlt⟩
    simpa using this

/-! ## C5: extension failure discrimination -/

/-- C5 counterexample: a filename with no `'.'` and a filename with a
disallowed extension produce the very same response (the single
`'文件类型不被允许'` 400 error), so the two failures are not
distinguishable to the caller. -/
theorem extension_failures_not_distinguishable :
    upload_file (fun _ => true) (fun _ => 0) 0 (some ("noext", [1])) [] =
      upload_file (fun _ => true) (fun _ => 0) 0 (some ("photo.bmp", [1])) [] ∧
    (upload_file (fun _ => true) (fun _ => 0) 0 (some ("noext", [1])) []).1 =
      .errorTypeNotAllowed := by
  decide

/-- C5 amended: a filename with no `'.'` and a filename whose lowercased
final extension is outside the allow-list both fail with the same single
error (`errorTypeNotAllowed`, the 400 `'文件类型不被允许'` response), the
store untouched; the code does not distinguish the two cases. -/
theorem upload_rejects_bad_extension_uniformly (validate : Bytes → Bool)
    (r : Nat → Nat) (now : Int) (filename : String) (bytes : Bytes) (store : Store)
    (h : afterLastDot filename = none ∨
      ∃ e, afterLastDot filename = some e ∧ strLower e ∉ ALLOWED_EXTENSIONS)
    (hne : filename ≠ "") :
    upload_file validate r now (some (filename, bytes)) store =
      (.errorTypeNotAllowed, store) := by
  have hA : allowed_file filename = false := by
    rcases h with h | ⟨e, he, hnot⟩
    · simp [allowed_file, h]
    · simp [allowed_file, he, hnot]
  simp [upload_file, hne, hA]

theorem upload_rejects_bad_extension_uniformly_witness :
    upload_file (fun _ => true) (fun _ => 0) 0 (some ("archive.bmp", [3])) [] =
      (.errorTypeNotAllowed, []) := by
  exact upload_rejects_bad_extension_uniformly (fun _ => true) (fun _ => 0) 0
    "archive.bmp" [3] []
    (Or.inr ⟨"bmp", by decide, by decide⟩) (by decide)

/-! ## C2: invalid image rejected before any write -/

/-- C2: when the extension is allowed but the bytes fail image
validation, the upload fails with the invalid-image error and the store
is returned exactly as it was: validation runs strictly before the
archive write, so no file is created. -/
theorem upload_invalid_image_rejected (validate : Bytes → Bool) (r : Nat → Nat)
    (now : Int) (filename : String) (bytes : Bytes) (store : Store)
    (ha : allowed_file filename = true) (hv : validate bytes = false) :
    upload_file validate r now (some (filename, bytes)) store =
      (.errorInvalidImage, store) := by
  have hne : filename ≠ "" := by
    rintro rfl
    exact absurd ha (by decide)
  simp [upload_file, hne, ha, hv]

theorem upload_invalid_image_rejected_witness :
    upload_file (fun _ => false) (fun _ => 0) 0 (some ("p.png", [9])) [] =
      (.errorInvalidImage, []) := by
  exact upload_invalid_image_rejected (fun _ => false) (fun _ => 0) 0 "p.png" [9] []
    (by decide) rfl

/-! ## Extension-splitting lemmas -/

theorem afterLastDotAux_eq_none_iff (l : List Char) :
    afterLastDotAux l = none ↔ '.' ∉ l := by
  induction l with
  | nil => simp [afterLastDotAux]
  | cons c rest ih =>
    rw [afterLastDotAux]
    cases h : afterLastDotAux rest with
    | some r =>
      have hm : '.' ∈ rest := by
        by_contra hmem
        rw [← ih] at hmem
        simp [h] at hmem
      simp [List.mem_cons, hm]
    | none =>
      have hm : '.' ∉ rest := ih.mp h
      by_cases hc : c = '.'
      · simp [hc]
      · have hcc : ('.' : Char) ≠ c := fun hd => hc hd.symm
        simp [hc, List.mem_cons, hcc, hm]

theorem afterLastDotAux_append_dot (l₁ l₂ : List Char) (h : '.' ∉ l₂) :
    afterLastDotAux (l₁ ++ '.' :: l₂) = some l₂ := by
  induction l₁ with
  | nil =>
    rw [List.nil_append, afterLastDotAux, (afterLastDotAux_eq_none_iff l₂).mpr h]
    simp
  | cons c rest ih =>
    rw [List.cons_append, afterLastDotAux, ih]

theorem afterLastDot_append (s t : String) (h : '.' ∉ t.data) :
    afterLastDot (s ++ "." ++ t) = some t := by
  have hdata : (s ++ "." ++ t).data = s.data ++ '.' :: t.data := by
    simp [String.data_append]
  rw [afterLastDot, hdata, afterLastDotAux_append_dot _ _ h]
  rfl

/-! ## C1: round-trip fidelity -/

/-- C1: a successful upload of `(filename, bytes)` whose extension `e` is
in the allow-list, followed by a view of the returned identifier, serves
back exactly the uploaded bytes under the MIME type corresponding to
`e`. -/
theorem upload_view_roundtrip (validate : Bytes → Bool) (r : Nat → Nat) (now : Int)
    (filename : String) (bytes : Bytes) (store : Store) (e : String)
    (he : afterLastDot filename = some e) (hmem : e ∈ ALLOWED_EXTENSIONS)
    (hv : validate bytes = true) :
    (upload_file validate r now (some (filename, bytes)) store).1 =
      .ok (generate_random_id 8 r ++ ".zip") (generate_random_id 8 r) ∧
    view_image (generate_random_id 8 r)
        (upload_file validate r now (some (filename, bytes)) store).2 =
      .ok (mime e) bytes := by
  have hne : filename ≠ "" := by
    rintro rfl
    rw [show afterLastDot "" = none from rfl] at he
    exact Option.noConfusion he
  have hcases : strLower e = e ∧ ('.' : Char) ∉ e.data := by
    fin_cases hmem <;> exact ⟨by decide, by decide⟩
  obtain ⟨hlow, hdot⟩ := hcases
  have hA : allowed_file filename = true := by
    simp only [allowed_file, he]
    rw [hlow]
    exact decide_eq_true hmem
  have hup : upload_file validate r now (some (filename, bytes)) store =
      (.ok (generate_random_id 8 r ++ ".zip") (generate_random_id 8 r),
       storeSet store (generate_random_id 8 r ++ ".zip")
         ⟨.zip [⟨generate_random_id 8 r ++ "." ++ e, bytes⟩], now⟩) := by
    simp [upload_file, hne, hA, hv, he, hlow]
  refine ⟨by rw [hup], ?_⟩
  rw [hup]
  have hlook := storeLookup_storeSet_self store (generate_random_id 8 r ++ ".zip")
    ⟨.zip [⟨generate_random_id 8 r ++ "." ++ e, bytes⟩], now⟩
  simp only [view_image, hlook]
  rw [afterLastDot_append (generate_random_id 8 r) e hdot]
  simp [hlow, zipReadByName]

theorem upload_view_roundtrip_witness :
    (upload_file (fun _ => true) (fun _ => 0) 0 (some ("p.png", [7, 8])) []).1 =
      .ok "aaaaaaaa.zip" "aaaaaaaa" ∧
    view_image "aaaaaaaa"
        (upload_file (fun _ => true) (fun _ => 0) 0 (some ("p.png", [7, 8])) []).2 =
      .ok "image/png" [7, 8] := by
  have h := upload_view_roundtrip (fun _ => true) (fun _ => 0) 0 "p.png" [7, 8] []
    "png" (by decide) (by decide) rfl
  exact h

/-! ## C7: retrieval failure discrimination -/

/-- C7: a missing `{id}.zip` yields `notFound` (404); a present file that
is not a valid ZIP container yields `badZip` (500); a valid container
with zero entries yields `emptyArchive` (500); the outcomes are distinct
and 404 differs from 500. -/
theorem view_image_error_discrimination (store : Store) (id : String) :
    (storeLookup store (id ++ ".zip") = none →
      view_image id store = .notFound ∧ http_status (view_image id store) = 404) ∧
    (∀ b mt, storeLookup store (id ++ ".zip") = some ⟨.raw b, mt⟩ →
      view_image id store = .badZip ∧ http_status (view_image id store) = 500) ∧
    (∀ mt, storeLookup store (id ++ ".zip") = some ⟨.zip [], mt⟩ →
      view_image id store = .emptyArchive ∧ http_status (view_image id store) = 500) ∧
    ViewResult.notFound ≠ .badZip ∧ ViewResult.notFound ≠ .emptyArchive ∧
    (404 : Nat) ≠ 500 := by
  refine ⟨?_, ?_, ?_, by decide, by decide, by decide⟩
  · intro h
    simp [view_image, h, http_status]
  · intro b mt h
    simp [view_image, h, http_status]
  · intro mt h
    simp [view_image, h, http_status]

theorem view_image_error_discrimination_witness :
    view_image "missing" [("r.zip", ⟨.raw [0], 0⟩), ("e.zip", ⟨.zip [], 0⟩)] =
      .notFound ∧
    view_image "r" [("r.zip", ⟨.raw [0], 0⟩), ("e.zip", ⟨.zip [], 0⟩)] = .badZip ∧
    view_image "e" [("r.zip", ⟨.raw [0], 0⟩), ("e.zip", ⟨.zip [], 0⟩)] =
      .emptyArchive := by
  refine ⟨((view_image_error_discrimination _ "missing").1 (by decide)).1,
    ((view_image_error_discrimination _ "r").2.1 [0] 0 (by decide)).1,
    ((view_image_error_discrimination _ "e").2.2.1 0 (by decide)).1⟩

/-! ## C8: first entry name, read by name, and MIME derivation -/

/-- C8 counterexample: in an archive whose second entry duplicates the
first entry's name with different bytes, `get` serves the second entry's
bytes (the name index is last-wins), not the first listed entry's: the
payload read is by name, not positional. -/
theorem view_image_duplicate_name_counterexample :
    view_image "d" [("d.zip", ⟨.zip [⟨"x.png", [1]⟩, ⟨"x.png", [2]⟩], 0⟩)] =
      .ok "image/png" [2] ∧
    view_image "d" [("d.zip", ⟨.zip [⟨"x.png", [1]⟩, ⟨"x.png", [2]⟩], 0⟩)] ≠
      .ok "image/png" [1] := by
  decide

theorem zipReadByName_eq_none (entries : List ZipEntry) (name : String)
    (h : ∀ e ∈ entries, e.name ≠ name) : zipReadByName entries name = none := by
  induction entries with
  | nil => rfl
  | cons e rest ih =>
    have h1 : e.name ≠ name := h e (List.mem_cons_self e rest)
    have h2 : ∀ x ∈ rest, x.name ≠ name := fun x hx => h x (List.mem_cons_of_mem e hx)
    simp [zipReadByName, ih h2, h1]

/-- C8 amended: on an archive with one or more entries, `view_image`
takes the FIRST listed entry's name (container-native order, not sorted,
not matched by identifier) and derives the MIME type from its lowercased
extension — `jpg` becoming `image/jpeg` and every other extension `ext`
becoming `image/{ext}` — but reads the payload BY that NAME through the
container's name index, in which the last same-named entry wins; when
the first entry's name is unique among the entries (as in every archive
the app itself writes), exactly the first entry's bytes are served. The
ASCII hypothesis on the extension keeps `strLower` in the regime where
it agrees with Python's Unicode `str.lower`. -/
theorem view_image_first_name_mime (store : Store) (id : String) (e1 : ZipEntry)
    (rest : List ZipEntry) (mt : Int) (ex : String)
    (hl : storeLookup store (id ++ ".zip") = some ⟨.zip (e1 :: rest), mt⟩)
    (he : afterLastDot e1.name = some ex)
    (_hascii : ∀ c ∈ ex.data, c.toNat < 128) :
    (∀ d, zipReadByName (e1 :: rest) e1.name = some d →
      view_image id store = .ok (mime (strLower ex)) d) ∧
    ((∀ e ∈ rest, e.name ≠ e1.name) →
      view_image id store = .ok (mime (strLower ex)) e1.data) ∧
    mime "jpg" = "image/jpeg" ∧
    (∀ ext, ext ≠ "jpg" → mime ext = "image/" ++ ext) := by
  refine ⟨?_, ?_, rfl, fun ext h => by simp [mime, h]⟩
  · intro d hd
    simp [view_image, hl, he, hd]
  · intro hun
    have hz : zipReadByName rest e1.name = none := zipReadByName_eq_none rest e1.name hun
    have hd : zipReadByName (e1 :: rest) e1.name = some e1.data := by
      simp [zipReadByName, hz]
    simp [view_image, hl, he, hd]

theorem view_image_first_name_mime_witness :
    view_image "m" [("m.zip", ⟨.zip [⟨"x.JPG", [5]⟩, ⟨"a.png", [9]⟩], 0⟩)] =
      .ok "image/jpeg" [5] := by
  have h := view_image_first_name_mime
    [("m.zip", ⟨.zip [⟨"x.JPG", [5]⟩, ⟨"a.png", [9]⟩], 0⟩)] "m"
    ⟨"x.JPG", [5]⟩ [⟨"a.png", [9]⟩] 0 "JPG" (by decide) (by decide) (by decide)
  have hm : mime (strLower "JPG") = "image/jpeg" := by decide
  have hfirst := h.2.1 (by decide)
  rw [hm] at hfirst
  exact hfirst

/-! ## C10: entry name without a dot -/

/-- C10: when the first listed entry's name has no `'.'`, the
extension-splitting step fails (`IndexError` from `rsplit`), the failure
is caught and surfaced as a 500 error, and no successful response is
produced. -/
theorem view_image_no_dot_entry_error (store : Store) (id : String) (e1 : ZipEntry)
    (rest : List ZipEntry) (mt : Int)
    (hl : storeLookup store (id ++ ".zip") = some ⟨.zip (e1 :: rest), mt⟩)
    (he : afterLastDot e1.name = none) :
    view_image id store = .exceptionError ∧
    http_status (view_image id store) = 500 ∧
    ∀ m d, view_image id store ≠ .ok m d := by
  have hv : view_image id store = .exceptionError := by
    simp [view_image, hl, he]
  refine ⟨hv, by simp [hv, http_status], fun m d => by rw [hv]; simp⟩

theorem view_image_no_dot_entry_error_witness :
    view_image "n" [("n.zip", ⟨.zip [⟨"noext", [1]⟩], 0⟩)] = .exceptionError := by
  exact (view_image_no_dot_entry_error [("n.zip", ⟨.zip [⟨"noext", [1]⟩], 0⟩)] "n"
    ⟨"noext", [1]⟩ [] 0 (by decide) (by decide)).1

/-! ## Sweeper lemmas -/

theorem cleanup_loop_lookup_of_not_mem (cutoff : Int) (fault : String → Bool)
    (l : List String) (s : Store) (name : String) (h : name ∉ l) :
    storeLookup (cleanup_loop cutoff fault s l).1 name = storeLookup s name := by
  induction l generalizing s with
  | nil => rfl
  | cons n rest ih =>
    have hn : n ≠ name := fun he => h (he ▸ List.mem_cons_self n rest)
    have hrest : name ∉ rest := fun hm => h (List.mem_cons_of_mem n hm)
    by_cases hz : strEndsWith n ".zip" = true
    · by_cases hf : fault n = true
      · simp [cleanup_loop, hz, hf]
      · cases hlk : storeLookup s n with
        | none => simp [cleanup_loop, hz, hf, hlk]
        | some file =>
          by_cases hm : file.mtime < cutoff
          · simp [cleanup_loop, hz, hf, hlk, hm, ih _ hrest,
              storeLookup_storeRemove_ne _ _ _ hn]
          · simp [cleanup_loop, hz, hf, hlk, hm, ih _ hrest]
    · simp [cleanup_loop, hz, ih _ hrest]

theorem cleanup_loop_nofault_lookup (cutoff : Int) (l : List String) (s : Store)
    (name : String) (file : StoredFile)
    (hnodupS : (s.map Prod.fst).Nodup) (hnodupL : l.Nodup)
    (hl : ∀ n ∈ l, n ∈ s.map Prod.fst)
    (hname : storeLookup s name = some file) :
    storeLookup (cleanup_loop cutoff (fun _ => false) s l).1 name =
      if name ∈ l ∧ strEndsWith name ".zip" = true ∧ file.mtime < cutoff then none
      else some file := by
  induction l generalizing s with
  | nil => simp [cleanup_loop, hname]
  | cons n rest ih =>
    rcases List.nodup_cons.mp hnodupL with ⟨hnr, hrestnd⟩
    have hlrest : ∀ m ∈ rest, m ∈ s.map Prod.fst :=
      fun m hm => hl m (List.mem_cons_of_mem n hm)
    by_cases heq : n = name
    · subst heq
      by_cases hz : strEndsWith n ".zip" = true
      · by_cases hm : file.mtime < cutoff
        · have h1 : storeLookup (storeRemove s n) n = none :=
            storeLookup_storeRemove_self s n hnodupS
          have h2 := cleanup_loop_lookup_of_not_mem cutoff (fun _ => false) rest
            (storeRemove s n) n hnr
          simp [cleanup_loop, hz, hname, hm, h2, h1]
        · have h2 := cleanup_loop_lookup_of_not_mem cutoff (fun _ => false) rest s n hnr
          simp [cleanup_loop, hz, hname, hm, h2]
      · have h2 := cleanup_loop_lookup_of_not_mem cutoff (fun _ => false) rest s n hnr
        simp [cleanup_loop, hz, h2, hname]
    · obtain ⟨fn, hfn⟩ : ∃ fn, storeLookup s n = some fn := by
        cases hlk : storeLookup s n with
        | none =>
          exact absurd ((storeLookup_eq_none_iff s n).mp hlk)
            (not_not_intro (hl n (List.mem_cons_self n rest)))
        | some fn => exact ⟨fn, rfl⟩
      have hmemiff : name ∈ n :: rest ↔ name ∈ rest := by
        have hne : name ≠ n := fun h => heq h.symm
        simp [List.mem_cons, hne]
      by_cases hz : strEndsWith n ".zip" = true
      · by_cases hm : fn.mtime < cutoff
        · have hnodupS' : ((storeRemove s n).map Prod.fst).Nodup :=
            List.Nodup.sublist (keys_storeRemove_sublist s n) hnodupS
          have hlrest' : ∀ m ∈ rest, m ∈ (storeRemove s n).map Prod.fst := by
            intro m hmr
            have hmn : n ≠ m := fun he => hnr (he ▸ hmr)
            have : storeLookup (storeRemove s n) m = storeLookup s m :=
              storeLookup_storeRemove_ne s n m hmn
            by_contra hno
            have h0 := (storeLookup_eq_none_iff (storeRemove s n) m).mpr hno
            rw [this] at h0
            exact absurd ((storeLookup_eq_none_iff s m).mp h0)
              (not_not_intro (hlrest m hmr))
          have hname' : storeLookup (storeRemove s n) name = some file := by
            rw [storeLookup_storeRemove_ne s n name heq, hname]
          have := ih (storeRemove s n) hnodupS' hrestnd hlrest' hname'
          simp [cleanup_loop, hz, hfn, hm, this, hmemiff]
        · have := ih s hnodupS hrestnd hlrest hname
          simp [cleanup_loop, hz, hfn, hm, this, hmemiff]
      · have := ih s hnodupS hrestnd hlrest hname
        simp [cleanup_loop, hz, this, hmemiff]

theorem cleanup_loop_append (cutoff : Int) (fault : String → Bool) (s : Store)
    (l₁ l₂ : List String) :
    cleanup_loop cutoff fault s (l₁ ++ l₂) =
      if (cleanup_loop cutoff fault s l₁).2 = true then cleanup_loop cutoff fault s l₁
      else cleanup_loop cutoff fault (cleanup_loop cutoff fault s l₁).1 l₂ := by
  induction l₁ generalizing s with
  | nil => simp [cleanup_loop]
  | cons n rest ih =>
    by_cases hz : strEndsWith n ".zip" = true
    · by_cases hf : fault n = true
      · simp [cleanup_loop, hz, hf]
      · cases hlk : storeLookup s n with
        | none => simp [cleanup_loop, hz, hf, hlk]
        | some file =>
          by_cases hm : file.mtime < cutoff
          · simp [cleanup_loop, hz, hf, hlk, hm, ih]
          · simp [cleanup_loop, hz, hf, hlk, hm, ih]
    · simp [cleanup_loop, hz, ih]

/-! ## C3: the sweep deletes exactly the expired archives -/

/-- C3: in a fault-free sweep cycle with cutoff `now - TTL`
(TTL = `FILE_EXPIRY_SECONDS` = 86400), a stored file is deleted exactly
when its name ends in `.zip` and its modification time is strictly below
the cutoff; every other file keeps its exact content, and a surviving
archive is still retrievable with an unchanged `view_image` result. -/
theorem cleanup_cycle_deletes_exactly_expired (now : Int) (store : Store)
    (name : String) (file : StoredFile)
    (hnodup : (store.map Prod.fst).Nodup)
    (hname : storeLookup store name = some file) :
    FILE_EXPIRY_SECONDS = 86400 ∧
    storeLookup (cleanup_cycle now (fun _ => false) store) name =
      (if strEndsWith name ".zip" = true ∧ file.mtime < now - FILE_EXPIRY_SECONDS
       then none else some file) ∧
    (¬(strEndsWith name ".zip" = true ∧ file.mtime < now - FILE_EXPIRY_SECONDS) →
      ∀ id, id ++ ".zip" = name →
        view_image id (cleanup_cycle now (fun _ => false) store) =
          view_image id store) := by
  have hmem : name ∈ store.map Prod.fst := by
    by_contra hno
    have h0 := (storeLookup_eq_none_iff store name).mpr hno
    rw [hname] at h0
    exact Option.noConfusion h0
  have hmain : storeLookup (cleanup_cycle now (fun _ => false) store) name =
      (if strEndsWith name ".zip" = true ∧ file.mtime < now - FILE_EXPIRY_SECONDS
       then none else some file) := by
    have h := cleanup_loop_nofault_lookup (now - FILE_EXPIRY_SECONDS)
      (store.map Prod.fst) store name file hnodup hnodup (fun n hn => hn) hname
    show storeLookup (cleanup_loop (now - FILE_EXPIRY_SECONDS) (fun _ => false)
      store (store.map Prod.fst)).1 name = _
    rw [h]
    simp [hmem]
  refine ⟨by decide, hmain, ?_⟩
  intro hsurv id hid
  have hlook2 : storeLookup (cleanup_cycle now (fun _ => false) store)
      (id ++ ".zip") = storeLookup store (id ++ ".zip") := by
    rw [hid, hmain, if_neg hsurv, hname]
  simp only [view_image, hlook2]

theorem cleanup_cycle_deletes_exactly_expired_witness :
    storeLookup (cleanup_cycle 1000000 (fun _ => false)
      [("a.zip", ⟨.zip [⟨"a.png", [1]⟩], 910000⟩),
       ("b.zip", ⟨.zip [⟨"b.png", [2]⟩], 917200⟩),
       ("c.zip", ⟨.zip [⟨"c.png", [3]⟩], 996400⟩)]) "a.zip" = none ∧
    storeLookup (cleanup_cycle 1000000 (fun _ => false)
      [("a.zip", ⟨.zip [⟨"a.png", [1]⟩], 910000⟩),
       ("b.zip", ⟨.zip [⟨"b.png", [2]⟩], 917200⟩),
       ("c.zip", ⟨.zip [⟨"c.png", [3]⟩], 996400⟩)]) "b.zip" =
      some ⟨.zip [⟨"b.png", [2]⟩], 917200⟩ ∧
    storeLookup (cleanup_cycle 1000000 (fun _ => false)
      [("a.zip", ⟨.zip [⟨"a.png", [1]⟩], 910000⟩),
       ("b.zip", ⟨.zip [⟨"b.png", [2]⟩], 917200⟩),
       ("c.zip", ⟨.zip [⟨"c.png", [3]⟩], 996400⟩)]) "c.zip" =
      some ⟨.zip [⟨"c.png", [3]⟩], 996400⟩ := by
  refine ⟨?_, ?_, ?_⟩
  · have h := (cleanup_cycle_deletes_exactly_expired 1000000
      [("a.zip", ⟨.zip [⟨"a.png", [1]⟩], 910000⟩),
       ("b.zip", ⟨.zip [⟨"b.png", [2]⟩], 917200⟩),
       ("c.zip", ⟨.zip [⟨"c.png", [3]⟩], 996400⟩)]
      "a.zip" ⟨.zip [⟨"a.png", [1]⟩], 910000⟩ (by decide) (by decide)).2.1
    rw [h]
    exact if_pos (by decide)
  · have h := (cleanup_cycle_deletes_exactly_expired 1000000
      [("a.zip", ⟨.zip [⟨"a.png", [1]⟩], 910000⟩),
       ("b.zip", ⟨.zip [⟨"b.png", [2]⟩], 917200⟩),
       ("c.zip", ⟨.zip [⟨"c.png", [3]⟩], 996400⟩)]
      "b.zip" ⟨.zip [⟨"b.png", [2]⟩], 917200⟩ (by decide) (by decide)).2.1
    rw [h]
    exact if_neg (by decide)
  · have h := (cleanup_cycle_deletes_exactly_expired 1000000
      [("a.zip", ⟨.zip [⟨"a.png", [1]⟩], 910000⟩),
       ("b.zip", ⟨.zip [⟨"b.png", [2]⟩], 917200⟩),
       ("c.zip", ⟨.zip [⟨"c.png", [3]⟩], 996400⟩)]
      "c.zip" ⟨.zip [⟨"c.png", [3]⟩], 996400⟩ (by decide) (by decide)).2.1
    rw [h]
    exact if_neg (by decide)

/-! ## C4: per-entry errors and the rest of the cycle -/

/-- C4 counterexample: with an expired `b.zip` listed after a faulting
`a.zip`, the cycle leaves `b.zip` in place, while the same cycle without
the fault deletes it: the error does not let the sweep continue with the
next entry — it aborts the remainder of the cycle. -/
theorem cleanup_error_not_continue_counterexample :
    storeLookup (cleanup_cycle 200000 (fun n => n == "a.zip")
      [("a.zip", ⟨.zip [], 0⟩), ("b.zip", ⟨.zip [], 0⟩)]) "b.zip" =
      some ⟨.zip [], 0⟩ ∧
    storeLookup (cleanup_cycle 200000 (fun _ => false)
      [("a.zip", ⟨.zip [], 0⟩), ("b.zip", ⟨.zip [], 0⟩)]) "b.zip" = none := by
  decide

/-- C4 amended: an error raised while stat-ing or deleting one entry is
caught by the `try/except` wrapping the whole listing loop: deletions
made on earlier entries persist, the remaining entries of that cycle are
skipped (not continued), the cycle returns normally, and the sweeper
loop goes on with the following cycles from the resulting store. -/
theorem cleanup_cycle_error_aborts_rest (now : Int) (fault : String → Bool)
    (store : Store) (l₁ l₂ : List String) (faulty : String)
    (cycles : List (Int × (String → Bool)))
    (hkeys : store.map Prod.fst = l₁ ++ faulty :: l₂)
    (hpre : (cleanup_loop (now - FILE_EXPIRY_SECONDS) fault store l₁).2 = false)
    (hz : strEndsWith faulty ".zip" = true)
    (hf : fault faulty = true) :
    cleanup_cycle now fault store =
      (cleanup_loop (now - FILE_EXPIRY_SECONDS) fault store l₁).1 ∧
    cleanup_files_run ((now, fault) :: cycles) store =
      cleanup_files_run cycles
        (cleanup_loop (now - FILE_EXPIRY_SECONDS) fault store l₁).1 := by
  have hmain : cleanup_cycle now fault store =
      (cleanup_loop (now - FILE_EXPIRY_SECONDS) fault store l₁).1 := by
    show (cleanup_loop (now - FILE_EXPIRY_SECONDS) fault store
      (store.map Prod.fst)).1 = _
    rw [hkeys, cleanup_loop_append, if_neg (by simp [hpre])]
    simp [cleanup_loop, hz, hf]
  exact ⟨hmain, by rw [cleanup_files_run, hmain]⟩

theorem cleanup_cycle_error_aborts_rest_witness :
    cleanup_cycle 200000 (fun n => n == "a.zip")
      [("a.zip", ⟨.zip [], 0⟩), ("b.zip", ⟨.zip [], 5⟩)] =
      [("a.zip", ⟨.zip [], 0⟩), ("b.zip", ⟨.zip [], 5⟩)] := by
  exact (cleanup_cycle_error_aborts_rest 200000 (fun n => n == "a.zip")
    [("a.zip", ⟨.zip [], 0⟩), ("b.zip", ⟨.zip [], 5⟩)]
    [] ["b.zip"] "a.zip" [] (by decide) rfl (by decide) rfl).1

/-! ## C9: delete on an absent archive -/

/-- C9 counterexample: `os.remove` on an identifier whose archive file is
absent raises `FileNotFoundError` rather than succeeding — delete is not
idempotent. -/
theorem os_remove_absent_raises_counterexample :
    os_remove [] "x.zip" = .error () := rfl

/-- C9 amended: deleting a present archive removes exactly that file;
deleting an already-absent one raises `FileNotFoundError` (the store is
not touched). Delete is not idempotent; in the sweeper the raised error
is merely caught by the cycle-level handler. -/
theorem os_remove_spec (store : Store) (path : String) :
    (storeLookup store path = none → os_remove store path = .error ()) ∧
    (∀ f, storeLookup store path = some f →
      os_remove store path = .ok (storeRemove store path)) := by
  constructor
  · intro h
    simp [os_remove, h]
  · intro f h
    simp [os_remove, h]

theorem os_remove_spec_witness :
    os_remove [] "x.zip" = .error () ∧
    os_remove [("y.zip", ⟨.zip [], 0⟩)] "y.zip" = .ok [] := by
  refine ⟨(os_remove_spec [] "x.zip").1 rfl, ?_⟩
  have h := (os_remove_spec [("y.zip", ⟨.zip [], 0⟩)] "y.zip").2 ⟨.zip [], 0⟩ rfl
  simpa [storeRemove] using h
